import Mathlib

/-
Verification development for the agent-backend repository (Python).

Shallow embedding conventions:
* Paths and commands are lists of characters (`Str`).  String literals are
  written as `"...".toList`.
* The target platform is Linux, where `os.path` is `posixpath`; the path
  module is therefore modelled once, following CPython's `posixpath`.
* Python character predicates (`\s`, `\w`, `str.strip`, `str.lower`) are
  modelled on the ASCII fragment; every input appearing in the claims is
  ASCII.
* Fallible Python code returns `Except`; a raised `PathEscapeError` carrying
  the offending input is `Except.error offending`.
-/

deriving instance DecidableEq for Except

namespace AgentBackend

abbrev Str := List Char

/-! ## CPython `posixpath` model -/

/-- `posixpath.isabs`: a path is absolute iff it begins with `/`. -/
def isabs (p : Str) : Bool :=
  match p with
  | [] => false
  | c :: _ => c = '/'

/-- Python `str.split('/')`: split on every separator, keeping empty parts. -/
def splitSep : Str → List Str
  | [] => [[]]
  | c :: rest =>
    if c = '/' then [] :: splitSep rest
    else
      match splitSep rest with
      | s :: ss => (c :: s) :: ss
      | [] => [[c]]

/-- One step of `posixpath.normpath`'s component loop (accumulator reversed).

Mirrors: skip `''` and `'.'`; append unless the component is `'..'` that can
cancel; otherwise pop when the accumulator is nonempty. -/
def normStep (initSl : Bool) (acc : List Str) (comp : Str) : List Str :=
  if comp = [] || comp = ['.'] then acc
  else if (!(comp = ['.', '.'])) || (!initSl && acc = [])
          || (acc.head? = some ['.', '.']) then comp :: acc
  else acc.tail

/-- Join components with `/` (Python `sep.join(comps)`). -/
def joinComps : List Str → Str
  | [] => []
  | [s] => s
  | s :: rest => s ++ '/' :: joinComps rest

/-- CPython `posixpath.normpath`. -/
def normpath (p : Str) : Str :=
  if p = [] then ['.']
  else
    let initSl := isabs p
    -- POSIX: exactly two leading slashes are preserved, one or three+ collapse
    let dbl := p.take 2 = ['/', '/'] && !(p.take 3 = ['/', '/', '/'])
    let comps := ((splitSep p).foldl (normStep initSl) []).reverse
    let slashes : Str := if initSl then (if dbl then ['/', '/'] else ['/']) else []
    let joined := slashes ++ joinComps comps
    if joined = [] then ['.'] else joined

/-- CPython `posixpath.join` restricted to two arguments, as used here. -/
def joinP (a b : Str) : Str :=
  if isabs b then b
  else if a = [] || a.getLast? = some '/' then a ++ b
  else a ++ '/' :: b

/-- Python `str.lstrip("/")`. -/
def lstripSlash (p : Str) : Str := p.dropWhile (fun c => c = '/')

/-! ## `backends/path_validation.py` -/

/-- `_resolve(p)`: `pathmod.normpath(pathmod.join("/", p))`. -/
def pathResolve (p : Str) : Str := normpath (joinP ['/'] p)

/-- The containment test used (twice) by `validate_within_boundary`:
`resolved.startswith(boundary_resolved + sep) or resolved == boundary_resolved`. -/
def withinCheck (boundaryResolved r : Str) : Bool :=
  (boundaryResolved ++ ['/']).isPrefixOf r || r = boundaryResolved

/-- `validate_within_boundary(relative_path, boundary)` from
`backends/path_validation.py`.  `Except.error off` models raising
`PathEscapeError(off)`. -/
def validate_within_boundary (relative_path boundary : Str) : Except Str Str :=
  let boundary_resolved := pathResolve boundary
  if isabs relative_path && withinCheck boundary_resolved (pathResolve relative_path) then
    .ok (pathResolve relative_path)
  else
    -- strip leading slashes from absolute paths, then combine with the boundary
    let normalized_path := if isabs relative_path then lstripSlash relative_path
                           else relative_path
    let combined := joinP boundary normalized_path
    let resolved := pathResolve combined
    if !(withinCheck boundary_resolved resolved) then .error relative_path
    else .ok (normpath combined)

/-- `validate_absolute_within_root(absolute_path, root_dir)`. -/
def validate_absolute_within_root (absolute_path root_dir : Str) : Except Str Unit :=
  let normalized_path := pathResolve absolute_path
  let normalized_root := pathResolve root_dir
  if !(withinCheck normalized_root normalized_path) then .error absolute_path
  else .ok ()

/-! ## `safety.py`: the CPython `re` fragment used by the pattern lists

Every pattern in `safety.py` is built from single-character classes, literal
text, `?`/`*`/`+` over a single-character class, short alternations, the word
boundary `\b` and the anchors `^`/`$`.  The syntax tree below covers exactly
that fragment; boolean `search` semantics (does a match exist anywhere?) do
not depend on Python's greedy/lazy priorities, so the matcher may try all
split points. -/

/-- Python `\s` (ASCII fragment). -/
def isPySpace (c : Char) : Bool :=
  c = ' ' || c = '\t' || c = '\n' || c = '\r' || c = Char.ofNat 11 || c = Char.ofNat 12

/-- Python `\w` (ASCII fragment). -/
def isPyWord (c : Char) : Bool :=
  ('a' ≤ c && c ≤ 'z') || ('A' ≤ c && c ≤ 'Z') || ('0' ≤ c && c ≤ '9') || c = '_'

/-- Python `.` without `DOTALL`: any character but a newline. -/
def isDotAny (c : Char) : Bool := !(c = '\n')

/-- Regular-expression syntax tree for the fragment used by `safety.py`. -/
inductive RE
  | eps
  | ch (p : Char → Bool)
  | seq (a b : RE)
  | alt (a b : RE)
  | opt (a : RE)
  | star (p : Char → Bool)
  | plus (p : Char → Bool)
  | wordB
  | bos
  | eos

/-- All ways `p*` can consume a prefix, then the continuation. -/
def starMat (p : Char → Bool) (k : Str → Option Char → Bool) : Str → Option Char → Bool
  | s, pv =>
    k s pv ||
      match s with
      | [] => false
      | c :: t => p c && starMat p k t (some c)

/-- Backtracking matcher in continuation style.  `pv` is the character just
before the current position (`none` at the start of the string), needed for
`\b` and `^`.  `$` matches at the end or just before a final newline, as in
Python without `MULTILINE`. -/
def reMat : RE → Str → Option Char → (Str → Option Char → Bool) → Bool
  | .eps, s, pv, k => k s pv
  | .ch p, s, _, k =>
    (match s with
     | [] => false
     | c :: t => p c && k t (some c))
  | .seq a b, s, pv, k => reMat a s pv (fun s2 pv2 => reMat b s2 pv2 k)
  | .alt a b, s, pv, k => reMat a s pv k || reMat b s pv k
  | .opt a, s, pv, k => reMat a s pv k || k s pv
  | .star p, s, pv, k => starMat p k s pv
  | .plus p, s, _, k =>
    (match s with
     | [] => false
     | c :: t => p c && starMat p k t (some c))
  | .wordB, s, pv, k =>
    ((match pv with | some c => isPyWord c | none => false)
      != (match s with | c :: _ => isPyWord c | [] => false)) && k s pv
  | .bos, s, pv, k => pv.isNone && k s pv
  | .eos, s, pv, k => (s = [] || s = ['\n']) && k s pv

/-- Try a match starting at every position, left to right. -/
def searchFrom (r : RE) : Str → Option Char → Bool
  | s, pv =>
    reMat r s pv (fun _ _ => true) ||
      match s with
      | [] => false
      | c :: t => searchFrom r t (some c)

/-- `pattern.search(s)` as a boolean. -/
def reSearch (r : RE) (s : Str) : Bool := searchFrom r s none

/-- A sequence of literal characters. -/
def lits : Str → RE
  | [] => .eps
  | c :: rest => .seq (.ch (fun d => d = c)) (lits rest)

/-- A single literal character. -/
def chEq (c : Char) : RE := .ch (fun d => d = c)

/-- Character class listing its members. -/
def oneOf (cs : Str) : RE := .ch (fun c => cs.contains c)

/-- Concatenation of a list of regexes. -/
def reCat (l : List RE) : RE := l.foldr .seq .eps

/-- `\b<word>\b`. -/
def wordRE (w : Str) : RE := reCat [.wordB, lits w, .wordB]

/-- `(sh|bash|zsh|fish)`. -/
def shellAlt : RE :=
  .alt (lits ("sh".toList))
    (.alt (lits ("bash".toList)) (.alt (lits ("zsh".toList)) (lits ("fish".toList))))

/-- Backquote character (ASCII 96). -/
def btick : Char := Char.ofNat 96

/-- The pattern (backquote)`[^`(backquote)`]+`(backquote). -/
def backtickCmdSub : RE :=
  reCat [chEq btick, .plus (fun c => !(c = btick)), chEq btick]

/-- The pattern `\$\([^)]+\)`. -/
def dollarParenCmdSub : RE :=
  reCat [chEq '$', chEq '(', .plus (fun c => !(c = ')')), chEq ')']

/-- `DEFAULT_ALLOWED_PATTERNS` from `safety.py`. -/
def DEFAULT_ALLOWED_PATTERNS : List RE :=
  [ -- ^gcloud\s+.*\brsync\b
    reCat [.bos, lits ("gcloud".toList), .plus isPySpace, .star isDotAny,
           .wordB, lits ("rsync".toList), .wordB],
    -- ^gcloud\s+storage\s+rsync\b
    reCat [.bos, lits ("gcloud".toList), .plus isPySpace, lits ("storage".toList),
           .plus isPySpace, lits ("rsync".toList), .wordB] ]

/-- `DANGEROUS_PATTERNS` from `safety.py`, in source order. -/
def DANGEROUS_PATTERNS : List RE :=
  [ -- \brm\b.*-rf?\b.*[/~*]
    reCat [.wordB, lits ("rm".toList), .wordB, .star isDotAny, chEq '-', chEq 'r',
           .opt (chEq 'f'), .wordB, .star isDotAny, oneOf ("/~*".toList)],
    -- \brm\b.*[/~*].*-rf?\b
    reCat [.wordB, lits ("rm".toList), .wordB, .star isDotAny, oneOf ("/~*".toList),
           .star isDotAny, chEq '-', chEq 'r', .opt (chEq 'f'), .wordB],
    -- \bdd\b.*\bof=/dev/
    reCat [.wordB, lits ("dd".toList), .wordB, .star isDotAny, .wordB,
           lits ("of=/dev/".toList)],
    wordRE ("sudo".toList),   -- \bsudo\b
    wordRE ("su".toList),     -- \bsu\b
    wordRE ("doas".toList),   -- \bdoas\b
    -- \bchmod\b.*777
    reCat [.wordB, lits ("chmod".toList), .wordB, .star isDotAny, lits ("777".toList)],
    -- \bchown\b.*root
    reCat [.wordB, lits ("chown".toList), .wordB, .star isDotAny, lits ("root".toList)],
    -- curl\b.*\|\s*(sh|bash|zsh|fish)\b
    reCat [lits ("curl".toList), .wordB, .star isDotAny, chEq '|', .star isPySpace,
           shellAlt, .wordB],
    -- wget\b.*\|\s*(sh|bash|zsh|fish)\b
    reCat [lits ("wget".toList), .wordB, .star isDotAny, chEq '|', .star isPySpace,
           shellAlt, .wordB],
    -- \|\s*(sh|bash|zsh|fish)\s*$
    reCat [chEq '|', .star isPySpace, shellAlt, .star isPySpace, .eos],
    wordRE ("nc".toList),     -- \bnc\b
    wordRE ("ncat".toList),   -- \bncat\b
    wordRE ("netcat".toList), -- \bnetcat\b
    wordRE ("telnet".toList), -- \btelnet\b
    wordRE ("ftp".toList),    -- \bftp\b
    wordRE ("ssh".toList),    -- \bssh\b
    wordRE ("scp".toList),    -- \bscp\b
    wordRE ("rsync".toList),  -- \brsync\b
    -- \bkill\s+-9
    reCat [.wordB, lits ("kill".toList), .plus isPySpace, lits ("-9".toList)],
    wordRE ("killall".toList),  -- \bkillall\b
    wordRE ("pkill".toList),    -- \bpkill\b
    wordRE ("shutdown".toList), -- \bshutdown\b
    wordRE ("reboot".toList),   -- \breboot\b
    wordRE ("halt".toList),     -- \bhalt\b
    -- \binit\s+[06]\b
    reCat [.wordB, lits ("init".toList), .plus isPySpace, oneOf ("06".toList), .wordB],
    wordRE ("mount".toList),  -- \bmount\b
    wordRE ("umount".toList), -- \bumount\b
    wordRE ("fdisk".toList),  -- \bfdisk\b
    wordRE ("mkfs".toList),   -- \bmkfs\b
    wordRE ("fsck".toList),   -- \bfsck\b
    backtickCmdSub,           -- backquote command substitution
    dollarParenCmdSub,        -- \$\([^)]+\)
    wordRE ("eval".toList),   -- word pattern for e-v-a-l
    lits (":()".toList),      -- :\(\)
    lits ("fork()".toList),   -- fork\(\)
    -- \bwhile\s+true\b
    reCat [.wordB, lits ("while".toList), .plus isPySpace, lits ("true".toList), .wordB],
    -- \byes\b.*>\s*/dev/null
    reCat [.wordB, lits ("yes".toList), .wordB, .star isDotAny, chEq '>',
           .star isPySpace, lits ("/dev/null".toList)],
    wordRE ("iptables".toList), -- \biptables\b
    wordRE ("ifconfig".toList), -- \bifconfig\b
    -- >>?\s*/etc/
    reCat [chEq '>', .opt (chEq '>'), .star isPySpace, lits ("/etc/".toList)],
    -- >\s*/etc/
    reCat [chEq '>', .star isPySpace, lits ("/etc/".toList)],
    -- \bcat\b.*>\s*/etc/
    reCat [.wordB, lits ("cat".toList), .wordB, .star isDotAny, chEq '>',
           .star isPySpace, lits ("/etc/".toList)],
    -- \becho\b.*>\s*/etc/
    reCat [.wordB, lits ("echo".toList), .wordB, .star isDotAny, chEq '>',
           .star isPySpace, lits ("/etc/".toList)],
    -- [a-z]""[a-z]
    reCat [.ch (fun c => 'a' ≤ c && c ≤ 'z'), chEq '"', chEq '"',
           .ch (fun c => 'a' ≤ c && c ≤ 'z')],
    -- \b(cp|mv|ln)\b.*\.\./
    reCat [.wordB, .alt (lits ("cp".toList)) (.alt (lits ("mv".toList)) (lits ("ln".toList))),
           .wordB, .star isDotAny, lits ("../".toList)],
    -- \bln\s+-s
    reCat [.wordB, lits ("ln".toList), .plus isPySpace, lits ("-s".toList)] ]

/-- `ESCAPE_PATTERNS` from `safety.py`, in source order. -/
def ESCAPE_PATTERNS : List RE :=
  [ wordRE ("cd".toList),    -- \bcd\b
    wordRE ("pushd".toList), -- \bpushd\b
    wordRE ("popd".toList),  -- \bpopd\b
    -- export\s+PATH=
    reCat [lits ("export".toList), .plus isPySpace, lits ("PATH=".toList)],
    -- export\s+HOME=
    reCat [lits ("export".toList), .plus isPySpace, lits ("HOME=".toList)],
    -- export\s+PWD=
    reCat [lits ("export".toList), .plus isPySpace, lits ("PWD=".toList)],
    lits ("~/".toList),      -- ~/
    lits ("$HOME".toList),   -- \$HOME
    -- \$ then HOME in braces
    reCat [chEq '$', chEq (Char.ofNat 123), lits ("HOME".toList), chEq (Char.ofNat 125)],
    -- \.\.[/\\]
    reCat [chEq '.', chEq '.', oneOf ("/\\".toList)],
    dollarParenCmdSub,       -- \$\([^)]+\)
    backtickCmdSub ]         -- backquote command substitution

/-! ## `safety.py`: functions -/

/-- Python `str.strip()` (ASCII whitespace). -/
def pyStrip (s : Str) : Str :=
  ((s.dropWhile isPySpace).reverse.dropWhile isPySpace).reverse

/-- Python `str.lower()` (ASCII). -/
def pyLower (s : Str) : Str := s.map Char.toLower

/-- `_is_allowed(command, config)`: allow-list patterns search the *stripped
but not lowercased* command.  `config` models `config.allowed_patterns`. -/
def _is_allowed (command : Str) (config : List RE) : Bool :=
  let normalized := pyStrip command
  (DEFAULT_ALLOWED_PATTERNS ++ config).any (fun p => reSearch p normalized)

/-- `is_dangerous(command, config)`: dangerous patterns search the stripped,
lowercased command, but only when no allow-list pattern matched. -/
def is_dangerous (command : Str) (config : List RE) : Bool :=
  let normalized := pyLower (pyStrip command)
  if _is_allowed command config then false
  else DANGEROUS_PATTERNS.any (fun p => reSearch p normalized)

/-! ### `_strip_heredoc_content`

The heredoc regex `<<\s*['\"]?(\w+)['\"]?[\s\S]*?\n\1` contains a
backreference, so it is embedded as a dedicated scanner implementing exactly
Python's leftmost match with backtracking priorities:

* `\s*`, the optional quotes and `(\w+)` are effectively deterministic here:
  a shorter greedy choice always leaves a character that can satisfy none of
  the alternatives that follow (whitespace is neither a quote nor a word
  character, a quote is not a word character), except that `(\w+)` genuinely
  backtracks from the longest capture downwards;
* whether the optional closing quote is consumed cannot change the match end,
  because the next mandatory character is a newline and a quote is not;
* the lazy `[\s\S]*?` picks the earliest position where `\n` followed by the
  captured tag occurs. -/

/-- Is the character one of `'` or `"`? -/
def isQuoteC (c : Char) : Bool := c = '\'' || c = '"'

/-- Length of the longest prefix satisfying `p`. -/
def countWhile (p : Char → Bool) : Str → Nat
  | [] => 0
  | c :: t => if p c then countWhile p t + 1 else 0

/-- Index of the first occurrence of `needle` in the string. -/
def findSubIdx (needle : Str) : Str → Option Nat
  | [] => if needle.isPrefixOf ([] : Str) then some 0 else none
  | c :: t =>
    if needle.isPrefixOf (c :: t) then some 0
    else (findSubIdx needle t).map (fun i => i + 1)

/-- Backtracking over the capture length (longest first), for
`(\w+)['\"]?[\s\S]*?\n\1`.  `after1` starts at the capture, `w` is the
maximal word run there; returns how many characters of `after1` the rest of
the match consumes. -/
def heredocTryLen (after1 w : Str) : Nat → Option Nat
  | 0 => none
  | L + 1 =>
    let cap := w.take (L + 1)
    let rest1 := after1.drop (L + 1)
    let q2 : Nat := match rest1 with
      | c :: _ => if isQuoteC c then 1 else 0
      | [] => 0
    let rest2 := rest1.drop q2
    match findSubIdx ('\n' :: cap) rest2 with
    | some i => some ((L + 1) + q2 + (i + 1 + (L + 1)))
    | none => heredocTryLen after1 w L

/-- Match attempt for the heredoc regex at a position whose text after the
`<<` opener is `rest`; returns how many characters of `rest` are consumed. -/
def heredocTry (rest : Str) : Option Nat :=
  let ns := countWhile isPySpace rest
  let afterSp := rest.drop ns
  let q1 : Nat := match afterSp with
    | c :: _ => if isQuoteC c then 1 else 0
    | [] => 0
  let after1 := afterSp.drop q1
  let w := after1.takeWhile isPyWord
  if w = [] then none
  else (heredocTryLen after1 w w.length).map (fun n => ns + q1 + n)

/-- Left-to-right scan of `re.sub`, replacing every heredoc match with
`<<HEREDOC_PLACEHOLDER` and resuming after the match.  `fuel` only bounds the
recursion; every step consumes at least one character, so `length + 1` fuel
is never exhausted. -/
def stripGo : Nat → Str → Str
  | 0, s => s
  | _ + 1, [] => []
  | f + 1, '<' :: '<' :: rest =>
    (match heredocTry rest with
     | some n => "<<HEREDOC_PLACEHOLDER".toList ++ stripGo f (rest.drop n)
     | none => '<' :: stripGo f ('<' :: rest))
  | f + 1, c :: rest => c :: stripGo f rest

/-- `_strip_heredoc_content(command)`. -/
def _strip_heredoc_content (command : Str) : Str :=
  stripGo (command.length + 1) command

/-- `is_escaping_workspace(command)`. -/
def is_escaping_workspace (command : Str) : Bool :=
  let command_without_heredocs := _strip_heredoc_content command
  ESCAPE_PATTERNS.any (fun p => reSearch p command_without_heredocs)

/-- `get_base_command(command)`: first whitespace-separated token. -/
def get_base_command (command : Str) : Str :=
  (pyStrip command).takeWhile (fun c => !isPySpace c)

/-- Result record of `is_command_safe`. -/
structure SafetyResult where
  safe : Bool
  reason : String
deriving DecidableEq

/-- Inline pattern `(?:curl|wget)\b.*\|\s*(?:sh|bash|zsh|fish)\b` from
`is_command_safe`. -/
def pipeToShellRE : RE :=
  reCat [.alt (lits ("curl".toList)) (lits ("wget".toList)), .wordB, .star isDotAny,
         chEq '|', .star isPySpace, shellAlt, .wordB]

/-- `is_command_safe(command, config)`. -/
def is_command_safe (command : Str) (config : List RE) : SafetyResult :=
  if is_dangerous command config then
    if reSearch pipeToShellRE (pyLower command) then
      ⟨false, "Piping downloads to shell is dangerous. Download to a file first (e.g., 'curl -O <url>'), inspect it, then execute if safe."⟩
    else
      ⟨false, "dangerous command '" ++ String.mk (get_base_command command) ++ "' is not allowed"⟩
  else if is_escaping_workspace command then
    if reSearch (wordRE ("cd".toList)) command then
      ⟨false, "Directory change commands are not allowed"⟩
    else if reSearch (lits ("~/".toList)) command
            || reSearch (lits ("$HOME".toList)) command then
      ⟨false, "Home directory references are not allowed"⟩
    else if reSearch (reCat [chEq '.', chEq '.', oneOf ("/\\".toList)]) command then
      ⟨false, "Parent directory traversal is not allowed"⟩
    else ⟨false, "Command attempts to escape workspace"⟩
  else ⟨true, ""⟩

/-! ## `types.py` -/

/-- `ErrorCode` from `types.py`. -/
inductive ErrorCode
  | EMPTY_COMMAND | UNSAFE_COMMAND | EXEC_FAILED | EXEC_ERROR | READ_FAILED
  | WRITE_FAILED | LS_FAILED | PATH_ESCAPE_ATTEMPT | MISSING_UTILITIES
  | INVALID_CONFIGURATION | DANGEROUS_OPERATION | CONNECTION_CLOSED
  | KEY_NOT_FOUND | NOT_IMPLEMENTED
deriving DecidableEq

/-- `ConnectionStatus` from `types.py`. -/
inductive ConnectionStatus
  | connected | connecting | disconnected | reconnecting | destroyed
deriving DecidableEq

/-- `StatusChangeEvent` from `types.py` (timestamp modelled as `Nat`). -/
structure StatusChangeEvent where
  from_status : ConnectionStatus
  to_status : ConnectionStatus
  timestamp : Nat
  error : Option String
deriving DecidableEq

/-- `FileStat` from `types.py` (`modified` modelled as `Nat`). -/
structure FileStat where
  is_file : Bool
  is_directory : Bool
  size : Nat
  modified : Nat
deriving DecidableEq

/-- A Python `str | bytes` payload. -/
inductive MemVal
  | text (s : String)
  | buf (b : List Nat)
deriving DecidableEq

/-- Python dict lookup (`d.get(k)`), dicts as insertion-ordered assoc lists. -/
def assocGet {β : Type} (d : List (String × β)) (k : String) : Option β :=
  (d.find? (fun kv => kv.1 = k)).map (fun kv => kv.2)

/-- Python dict assignment `d[k] = v`: update in place or append. -/
def assocSet {β : Type} : List (String × β) → String → β → List (String × β)
  | [], k, v => [(k, v)]
  | (k0, v0) :: rest, k, v =>
    if k0 = k then (k0, v) :: rest else (k0, v0) :: assocSet rest k v

/-! ## `backends/memory.py` (operations the claims use)

`MemoryBackend.__init__` sets `self._store = {}` and copies any seed data;
no path-taking operation of this class consults `validate_within_boundary`
or `self._root_dir`. -/

/-- The state of a `MemoryBackend`. -/
structure MemoryBackend where
  root_dir : Str
  store : List (String × MemVal)
deriving DecidableEq

/-- `read` option `encoding`. -/
inductive ReadEncoding
  | utf8 | buffer
deriving DecidableEq

/-- `MemoryBackend.read(key, options)`.  The UTF-8 codec is Python library
code, abstracted as the pair `encode`/`decode`. -/
def memRead (encode : String → List Nat) (decode : List Nat → String)
    (m : MemoryBackend) (key : String) (enc : ReadEncoding) :
    Except ErrorCode MemVal :=
  match assocGet m.store key with
  | none => .error .KEY_NOT_FOUND
  | some v =>
    match enc, v with
    | .buffer, .text s => .ok (.buf (encode s))
    | .buffer, .buf b => .ok (.buf b)
    | .utf8, .buf b => .ok (.text (decode b))
    | .utf8, .text s => .ok (.text s)

/-- `MemoryBackend.write(key, content)`: stores unconditionally — the key is
not validated against the backend's root boundary. -/
def memWrite (m : MemoryBackend) (key : String) (content : MemVal) : MemoryBackend :=
  { m with store := assocSet m.store key content }

/-! ## `backends/status.py` -/

/-- `ConnectionStatusManager` state.  Listener callbacks are identified by
`Nat`.  CPython stores them in `self._listeners: set`; the recorded list
remembers registration order for the statements below, but iteration order
over a Python set is *not* registration order, so `set_status` takes the
iteration order as a separate parameter ranging over the permutations of the
set. -/
structure ConnectionStatusManager where
  status : ConnectionStatus
  listeners : List Nat
deriving DecidableEq

/-- `on_status_change(cb)`: `self._listeners.add(cb)` (idempotent). -/
def on_status_change (m : ConnectionStatusManager) (cb : Nat) :
    ConnectionStatusManager :=
  if cb ∈ m.listeners then m else { m with listeners := m.listeners ++ [cb] }

/-- `set_status(new_status, error)`.

* Same status: early return, no event.
* Otherwise: build the event, update the status, iterate over
  `list(self._listeners)` in the runtime-chosen order `order`, invoking each
  listener once; `behave` gives each call's outcome (`.error` models the
  listener raising) and the `try/except: pass` swallows it, so iteration
  continues past failures and the caller never observes an exception.  The
  returned list records every attempted call with its outcome. -/
def set_status (m : ConnectionStatusManager) (new_status : ConnectionStatus)
    (error : Option String) (now : Nat) (order : List Nat)
    (behave : Nat → StatusChangeEvent → Except String Unit) :
    ConnectionStatusManager × List (Nat × Except String Unit) :=
  if m.status = new_status then (m, [])
  else
    let event : StatusChangeEvent :=
      { from_status := m.status, to_status := new_status, timestamp := now, error := error }
    ({ m with status := new_status }, order.map (fun l => (l, behave l event)))

/-! ## `pool.py`

`_PooledBackend` objects are mutable heap objects captured by the `release`
closures; the model keeps every allocated object in `objs` (index = object
identity) and every returned release closure in `handles` (`some oid` for a
pooled release, `none` for the key-`None` no-op release).  Backend instances
produced by `backend_factory` are numbered by `next_backend`; their `.status`
property is an external input `status : Nat → ConnectionStatus`. -/

/-- `_PooledBackend` (mutable fields; `in_use` kept as `Int` since the code
never guards the decrement). -/
structure PooledBackend where
  backend : Nat
  in_use : Int
  last_used : Nat
deriving DecidableEq

/-- The pool manager state plus the closure heap. -/
structure PoolState where
  objs : List PooledBackend
  table : List (String × Nat)
  next_backend : Nat
  handles : List (Option Nat)
deriving DecidableEq

/-- `pooled.in_use += d; pooled.last_used = t` on object `i`. -/
def bumpAt : List PooledBackend → Nat → Int → Nat → List PooledBackend
  | [], _, _, _ => []
  | pb :: rest, 0, d, t => ⟨pb.backend, pb.in_use + d, t⟩ :: rest
  | pb :: rest, i + 1, d, t => pb :: bumpAt rest i d t

/-- What one `acquire_backend` call returns: the new state, the backend
instance handed to the caller, and the index of the release closure. -/
structure AcquireResult where
  st : PoolState
  backend : Nat
  handle : Nat
deriving DecidableEq

/-- `acquire_backend(key)`:

* `key is None`: construct a fresh non-pooled instance, release is a no-op;
* pooled entry present and its backend's status is CONNECTED: reuse it;
* otherwise construct a replacement `_PooledBackend(backend, in_use=0, ...)`,
  store it under the key (the stale entry is replaced, never destroyed),
  then `in_use += 1; last_used = now` (collapsed to `in_use = 1` here). -/
def acquire_backend (status : Nat → ConnectionStatus) (now : Nat)
    (s : PoolState) (key : Option String) : AcquireResult :=
  match key with
  | none =>
    ⟨{ s with next_backend := s.next_backend + 1, handles := s.handles ++ [none] },
      s.next_backend, s.handles.length⟩
  | some k =>
    let fresh : AcquireResult :=
      ⟨{ objs := s.objs ++ [⟨s.next_backend, 1, now⟩],
         table := assocSet s.table k s.objs.length,
         next_backend := s.next_backend + 1,
         handles := s.handles ++ [some s.objs.length] },
        s.next_backend, s.handles.length⟩
    match assocGet s.table k with
    | none => fresh
    | some oid =>
      match s.objs.get? oid with
      | none => fresh
      | some pb =>
        if status pb.backend = .connected then
          ⟨{ s with objs := bumpAt s.objs oid 1 now,
                    handles := s.handles ++ [some oid] },
            pb.backend, s.handles.length⟩
        else fresh

/-- Events a caller can perform: an acquire, or invoking the release closure
returned by the `h`-th acquire (`release()` decrements the captured object's
`in_use` unguarded; a `none` handle is the key-`None` no-op). -/
inductive PoolOp
  | acquire (key : Option String) (now : Nat)
  | release (h : Nat) (now : Nat)
deriving DecidableEq

/-- One step of the pool history. -/
def stepPool (status : Nat → ConnectionStatus) (s : PoolState) : PoolOp → PoolState
  | .acquire key now => (acquire_backend status now s key).st
  | .release h now =>
    match s.handles.get? h with
    | some (some oid) => { s with objs := bumpAt s.objs oid (-1) now }
    | _ => s

/-- Run a sequence of acquires / release invocations. -/
def runPool (status : Nat → ConnectionStatus) (s : PoolState)
    (tr : List PoolOp) : PoolState :=
  tr.foldl (stepPool status) s

/-- The pool of a freshly constructed `BackendPoolManager`. -/
def initPool : PoolState := ⟨[], [], 0, []⟩

/-- A trace is well formed when every release invocation refers to a closure
already returned by some earlier acquire (in Python a caller can only invoke
functions it received); `n` counts acquires so far. -/
def wfTrace : Nat → List PoolOp → Bool
  | _, [] => true
  | n, .acquire _ _ :: rest => wfTrace (n + 1) rest
  | n, .release h _ :: rest => decide (h < n) && wfTrace n rest

/-- The release-closure indices invoked by a trace, in order. -/
def relIndices : List PoolOp → List Nat
  | [] => []
  | .release h _ :: rest => h :: relIndices rest
  | .acquire _ _ :: rest => relIndices rest

/-! ## `backends/local.py` (path-taking operations)

The OS primitives (`os.makedirs`, `open`, `os.rename`, `shutil.rmtree`, ...)
live outside the repository; they are abstracted as a record of transformers
over an opaque filesystem state `FS`.  A mutating primitive returns its new
state together with `Except`: `.error OsE.notFound` models raising
`FileNotFoundError`, `.error (OsE.other _)` any other `OSError`.  Each
operation below keeps `local.py`'s exact call order — in particular
`_resolve_path` (boundary validation) runs before the first primitive. -/

/-- An `OSError`: `FileNotFoundError` or any other kind. -/
inductive OsE
  | notFound
  | other (msg : String)
deriving DecidableEq

/-- Abstract OS interface used by `LocalFilesystemBackend`. -/
structure OsPrims (FS : Type) where
  makedirs : FS → Str → Bool → Except OsE Unit × FS
  writeText : FS → Str → String → Except OsE Unit × FS
  writeBytes : FS → Str → List Nat → Except OsE Unit × FS
  readText : FS → Str → Except OsE String
  readBytes : FS → Str → Except OsE (List Nat)
  renameFS : FS → Str → Str → Except OsE Unit × FS
  isdir : FS → Str → Bool
  pathExists : FS → Str → Bool
  rmtree : FS → Str → Except OsE Unit × FS
  removeFile : FS → Str → Except OsE Unit × FS
  rmdir : FS → Str → Except OsE Unit × FS
  listdir : FS → Str → Except OsE (List String)
  statFS : FS → Str → Except OsE FileStat
  touchFS : FS → Str → Except OsE Unit × FS

/-- Index of the last `/`, if any (Python `str.rfind('/')`). -/
def rfindSlashIdx : Str → Option Nat
  | [] => none
  | c :: t =>
    match rfindSlashIdx t with
    | some i => some (i + 1)
    | none => if c = '/' then some 0 else none

/-- `posixpath.dirname`. -/
def dirnameP (p : Str) : Str :=
  let i := match rfindSlashIdx p with
    | some j => j + 1
    | none => 0
  let head := p.take i
  if head ≠ [] ∧ ¬ head.all (fun c => c = '/') then
    (head.reverse.dropWhile (fun c => c = '/')).reverse
  else head

/-- Errors surfaced by a local-backend operation. -/
inductive BackendErr
  | pathEscape (path : Str)
  | backendError (code : ErrorCode)
  | osError (e : OsE)
deriving DecidableEq

/-- `_resolve_path(relative_path)`: `validate_within_boundary` then
`os.path.abspath` (= `normpath (joinP cwd ·)` with `cwd` the process working
directory). -/
def local_resolve_path (root cwd p : Str) : Except BackendErr Str :=
  match validate_within_boundary p root with
  | .error off => .error (.pathEscape off)
  | .ok combined => .ok (normpath (joinP cwd combined))

/-- The path-taking operations of the backend contract. -/
inductive LocalOp
  | read (p : Str) (buffer : Bool)
  | write (p : Str) (content : MemVal)
  | rename (old_path new_path : Str)
  | rm (p : Str) (recursive force : Bool)
  | readdir (p : Str)
  | mkdir (p : Str) (recursive : Bool)
  | touch (p : Str)
  | existsOp (p : Str)
  | stat (p : Str)
deriving DecidableEq

/-- Results of the operations. -/
inductive OpResult
  | unitR
  | textR (s : String)
  | bytesR (b : List Nat)
  | namesR (l : List String)
  | boolR (b : Bool)
  | statR (f : FileStat)
deriving DecidableEq

/-- `except FileNotFoundError / except OSError` wrapper of `rm`'s try body. -/
def rmWrap {FS : Type} (force : Bool) (r : Except OsE Unit) (fs : FS) :
    Except BackendErr OpResult × FS :=
  match r with
  | .ok _ => (.ok .unitR, fs)
  | .error .notFound =>
    if force then (.ok .unitR, fs) else (.error (.backendError .WRITE_FAILED), fs)
  | .error (.other _) => (.error (.backendError .WRITE_FAILED), fs)

/-- `LocalFilesystemBackend`'s path-taking operations, translated from
`local.py` with the exact order of validation, primitive calls and
`try/except` conversion to `BackendError`. -/
def runLocal {FS : Type} (P : OsPrims FS) (root cwd : Str) (fs : FS) :
    LocalOp → Except BackendErr OpResult × FS
  | .read p buffer =>
    (match local_resolve_path root cwd p with
     | .error e => (.error e, fs)
     | .ok full =>
       if buffer then
         match P.readBytes fs full with
         | .error _ => (.error (.backendError .READ_FAILED), fs)
         | .ok b => (.ok (.bytesR b), fs)
       else
         match P.readText fs full with
         | .error _ => (.error (.backendError .READ_FAILED), fs)
         | .ok s => (.ok (.textR s), fs))
  | .write p content =>
    (match local_resolve_path root cwd p with
     | .error e => (.error e, fs)
     | .ok full =>
       match P.makedirs fs (dirnameP full) true with
       | (.error _, fs1) => (.error (.backendError .WRITE_FAILED), fs1)
       | (.ok _, fs1) =>
         match (match content with
                | .text s => P.writeText fs1 full s
                | .buf b => P.writeBytes fs1 full b) with
         | (.error _, fs2) => (.error (.backendError .WRITE_FAILED), fs2)
         | (.ok _, fs2) => (.ok .unitR, fs2))
  | .rename old_path new_path =>
    (match local_resolve_path root cwd old_path with
     | .error e => (.error e, fs)
     | .ok fullOld =>
       match local_resolve_path root cwd new_path with
       | .error e => (.error e, fs)
       | .ok fullNew =>
         match P.makedirs fs (dirnameP fullNew) true with
         | (.error _, fs1) => (.error (.backendError .WRITE_FAILED), fs1)
         | (.ok _, fs1) =>
           match P.renameFS fs1 fullOld fullNew with
           | (.error _, fs2) => (.error (.backendError .WRITE_FAILED), fs2)
           | (.ok _, fs2) => (.ok .unitR, fs2))
  | .rm p recursive force =>
    (match local_resolve_path root cwd p with
     | .error e => (.error e, fs)
     | .ok full =>
       if recursive then
         if P.isdir fs full then
           match P.rmtree fs full with
           | (r, fs1) => rmWrap force r fs1
         else if P.pathExists fs full then
           match P.removeFile fs full with
           | (r, fs1) => rmWrap force r fs1
         else if force then (.ok .unitR, fs)
         else (.error (.backendError .WRITE_FAILED), fs)
       else
         if P.isdir fs full then
           match P.rmdir fs full with
           | (r, fs1) => rmWrap force r fs1
         else if P.pathExists fs full then
           match P.removeFile fs full with
           | (r, fs1) => rmWrap force r fs1
         else if force then (.ok .unitR, fs)
         else (.error (.backendError .WRITE_FAILED), fs))
  | .readdir p =>
    (match local_resolve_path root cwd p with
     | .error e => (.error e, fs)
     | .ok full =>
       match P.listdir fs full with
       | .error _ => (.error (.backendError .LS_FAILED), fs)
       | .ok l => (.ok (.namesR l), fs))
  | .mkdir p recursive =>
    (match local_resolve_path root cwd p with
     | .error e => (.error e, fs)
     | .ok full =>
       match P.makedirs fs full recursive with
       | (.error _, fs1) => (.error (.backendError .WRITE_FAILED), fs1)
       | (.ok _, fs1) => (.ok .unitR, fs1))
  | .touch p =>
    (match local_resolve_path root cwd p with
     | .error e => (.error e, fs)
     | .ok full =>
       -- no try/except here: an OSError propagates raw
       if P.pathExists fs full then (.ok .unitR, fs)
       else
         match P.makedirs fs (dirnameP full) true with
         | (.error e, fs1) => (.error (.osError e), fs1)
         | (.ok _, fs1) =>
           match P.touchFS fs1 full with
           | (.error e, fs2) => (.error (.osError e), fs2)
           | (.ok _, fs2) => (.ok .unitR, fs2))
  | .existsOp p =>
    (match local_resolve_path root cwd p with
     | .error e => (.error e, fs)
     | .ok full => (.ok (.boolR (P.pathExists fs full)), fs))
  | .stat p =>
    (match local_resolve_path root cwd p with
     | .error e => (.error e, fs)
     | .ok full =>
       match P.statFS fs full with
       | .error _ => (.error (.backendError .READ_FAILED), fs)
       | .ok st => (.ok (.statR st), fs))

/-- The path arguments an operation validates, in validation order. -/
def opPaths : LocalOp → List Str
  | .read p _ => [p]
  | .write p _ => [p]
  | .rename o n => [o, n]
  | .rm p _ _ => [p]
  | .readdir p => [p]
  | .mkdir p _ => [p]
  | .touch p => [p]
  | .existsOp p => [p]
  | .stat p => [p]

/-- Does `validate_within_boundary` reject this path for this boundary? -/
def validateFails (root p : Str) : Bool :=
  match validate_within_boundary p root with
  | .error _ => true
  | .ok _ => false

/-- Is the outcome a raised `PathEscapeError`? -/
def isEscError : Except BackendErr OpResult → Bool
  | .error (.pathEscape _) => true
  | _ => false

/-- A trivial instantiation of the OS interface over a unit state, used to
evaluate the local backend's control flow on concrete inputs. -/
def unitPrims : OsPrims Unit where
  makedirs := fun fs _ _ => (.ok (), fs)
  writeText := fun fs _ _ => (.ok (), fs)
  writeBytes := fun fs _ _ => (.ok (), fs)
  readText := fun _ _ => .ok ""
  readBytes := fun _ _ => .ok []
  renameFS := fun fs _ _ => (.ok (), fs)
  isdir := fun _ _ => false
  pathExists := fun _ _ => false
  rmtree := fun fs _ => (.ok (), fs)
  removeFile := fun fs _ => (.ok (), fs)
  rmdir := fun fs _ => (.ok (), fs)
  listdir := fun _ _ => .ok []
  statFS := fun _ _ => .error (.other "missing")
  touchFS := fun fs _ => (.ok (), fs)

/-- Pool sanity: backend identities handed out so far are below
`next_backend`, and table entries point into `objs`. -/
def PoolInv (s : PoolState) : Prop :=
  (∀ pb ∈ s.objs, pb.backend < s.next_backend) ∧
  (∀ kv ∈ s.table, kv.2 < s.objs.length)

/-- Ghost state for the `in_use` argument: `avail` is `handles` with every
already-released closure blanked to `none`.  Lengths agree, live handles
point into `objs`, and each object's `in_use` equals the number of its live
handles. -/
def AvailInv (s : PoolState) (avail : List (Option Nat)) : Prop :=
  avail.length = s.handles.length ∧
  (∀ i oid, avail.get? i = some (some oid) → oid < s.objs.length) ∧
  (∀ oid pb, s.objs.get? oid = some pb →
    pb.in_use = (avail.count (some oid) : Int))

/-! ## Lemmas about the path model -/

lemma isabs_append (a b : Str) (ha : isabs a = true) : isabs (a ++ b) = true := by
  cases a with
  | nil => simp [isabs] at ha
  | cons c t => simpa [isabs] using ha

lemma isabs_joinP (a b : Str) (ha : isabs a = true) : isabs (joinP a b) = true := by
  unfold joinP
  split
  · assumption
  · split
    · exact isabs_append a b ha
    · exact isabs_append a ('/' :: b) ha

lemma pathResolve_of_isabs (q : Str) (h : isabs q = true) : pathResolve q = normpath q := by
  unfold pathResolve joinP
  rw [if_pos h]

lemma isabs_lstripSlash (p : Str) : isabs (lstripSlash p) = false := by
  unfold lstripSlash
  induction p with
  | nil => simp [isabs]
  | cons c t ih =>
    by_cases h : c = '/'
    · simpa [List.dropWhile_cons, h] using ih
    · simp [List.dropWhile_cons, h, isabs]

lemma validate_error_payload (p b e : Str)
    (h : validate_within_boundary p b = .error e) : e = p := by
  simp only [validate_within_boundary] at h
  by_cases h1 : (isabs p && withinCheck (pathResolve b) (pathResolve p)) = true
  · rw [if_pos h1] at h; cases h
  · rw [if_neg h1] at h
    by_cases h2 : (!(withinCheck (pathResolve b)
        (pathResolve (joinP b (if isabs p = true then lstripSlash p else p))))) = true
    · rw [if_pos h2] at h
      cases h
      rfl
    · rw [if_neg h2] at h; cases h

lemma validate_error_of_fails (root p : Str) (h : validateFails root p = true) :
    validate_within_boundary p root = .error p := by
  unfold validateFails at h
  cases heq : validate_within_boundary p root with
  | ok r => rw [heq] at h; simp at h
  | error e =>
    have hep : e = p := validate_error_payload p root e heq
    rw [hep]

lemma validate_ok_exists (root p : Str) (h : validateFails root p = false) :
    ∃ r, validate_within_boundary p root = .ok r := by
  unfold validateFails at h
  cases heq : validate_within_boundary p root with
  | ok r => exact ⟨r, rfl⟩
  | error e => rw [heq] at h; simp at h

/-! ## Lemmas about dicts and the pool model -/

lemma assocGet_assocSet {β : Type} (d : List (String × β)) (k : String) (v : β) :
    assocGet (assocSet d k v) k = some v := by
  induction d with
  | nil => simp [assocSet, assocGet]
  | cons kv rest ih =>
    by_cases h : kv.1 = k
    · simp [assocSet, assocGet, h]
    · simpa [assocSet, assocGet, h] using ih

lemma mem_assocSet {β : Type} (d : List (String × β)) (k : String) (v : β)
    (kv : String × β) (h : kv ∈ assocSet d k v) : kv ∈ d ∨ kv = (k, v) := by
  induction d with
  | nil =>
    simp only [assocSet] at h
    right
    simpa using h
  | cons kv0 rest ih =>
    obtain ⟨k0, v0⟩ := kv0
    simp only [assocSet] at h
    by_cases hk : k0 = k
    · rw [if_pos hk] at h
      rcases List.mem_cons.mp h with h1 | h1
      · right
        rw [h1, hk]
      · left
        exact List.mem_cons_of_mem _ h1
    · rw [if_neg hk] at h
      rcases List.mem_cons.mp h with h1 | h1
      · left
        rw [h1]
        exact List.mem_cons_self _ _
      · rcases ih h1 with h2 | h2
        · left
          exact List.mem_cons_of_mem _ h2
        · right
          exact h2

lemma count_set_none (l : List (Option Nat)) (h : Nat) (v : Option Nat) (oid : Nat)
    (hget : l.get? h = some v) :
    (l.set h none).count (some oid) + (if v = some oid then 1 else 0) =
      l.count (some oid) := by
  induction l generalizing h with
  | nil => simp at hget
  | cons x rest ih =>
    cases h with
    | zero =>
      have hxv : v = x := by simpa using hget.symm
      subst hxv
      by_cases hx : v = some oid <;> simp [List.set, List.count_cons, hx]
    | succ n =>
      simp only [List.get?] at hget
      have hrec := ih n hget
      by_cases hx : x = some oid <;> simp [List.set, List.count_cons, hx] <;> omega

lemma bumpAt_length (l : List PooledBackend) (i : Nat) (d : Int) (t : Nat) :
    (bumpAt l i d t).length = l.length := by
  induction l generalizing i with
  | nil => rfl
  | cons x rest ih =>
    cases i with
    | zero => rfl
    | succ n => simp [bumpAt, ih]

lemma bumpAt_get?_self (l : List PooledBackend) (i : Nat) (d : Int) (t : Nat)
    (pb : PooledBackend) (h : l.get? i = some pb) :
    (bumpAt l i d t).get? i = some ⟨pb.backend, pb.in_use + d, t⟩ := by
  induction l generalizing i with
  | nil => simp at h
  | cons x rest ih =>
    cases i with
    | zero =>
      have : pb = x := by simpa using h.symm
      subst this
      rfl
    | succ n =>
      simp only [List.get?] at h ⊢
      exact ih n h

lemma bumpAt_get?_ne (l : List PooledBackend) (i : Nat) (d : Int) (t : Nat)
    (j : Nat) (h : j ≠ i) : (bumpAt l i d t).get? j = l.get? j := by
  induction l generalizing i j with
  | nil => rfl
  | cons x rest ih =>
    cases i with
    | zero =>
      cases j with
      | zero => exact absurd rfl h
      | succ m => rfl
    | succ n =>
      cases j with
      | zero => rfl
      | succ m =>
        simp only [bumpAt, List.get?]
        exact ih n m (fun he => h (by rw [he]))

lemma bumpAt_backend_map (l : List PooledBackend) (i : Nat) (d : Int) (t : Nat) :
    (bumpAt l i d t).map (fun pb => pb.backend) = l.map (fun pb => pb.backend) := by
  induction l generalizing i with
  | nil => rfl
  | cons x rest ih =>
    cases i with
    | zero => rfl
    | succ n => simp [bumpAt, ih]

lemma get?_append_cases {α : Type} (l : List α) (x : α) (i : Nat) (v : α)
    (h : (l ++ [x]).get? i = some v) :
    l.get? i = some v ∨ (i = l.length ∧ v = x) := by
  by_cases hlt : i < l.length
  · left; rwa [List.get?_append hlt] at h
  · right
    rw [List.get?_append_right (le_of_not_lt hlt)] at h
    cases hd : i - l.length with
    | zero =>
      rw [hd] at h
      exact ⟨by omega, by simpa using h.symm⟩
    | succ m =>
      rw [hd] at h
      simp at h

lemma liveAppend (avail handles : List (Option Nat)) (x : Option Nat) (j : Nat)
    (hlen : avail.length = handles.length) (hj : avail.get? j = handles.get? j) :
    (avail ++ [x]).get? j = (handles ++ [x]).get? j := by
  by_cases hlt : j < avail.length
  · rw [List.get?_append hlt, List.get?_append (hlen ▸ hlt), hj]
  · rw [List.get?_append_right (le_of_not_lt hlt),
        List.get?_append_right (hlen ▸ le_of_not_lt hlt), hlen]

lemma count_none_of_bound (avail : List (Option Nat)) (L : Nat)
    (h : ∀ i oid, avail.get? i = some (some oid) → oid < L) :
    avail.count (some L) = 0 := by
  rw [List.count_eq_zero]
  intro hmem
  obtain ⟨i, hi⟩ := List.mem_iff_get?.mp hmem
  exact lt_irrefl L (h i L hi)

lemma availInv_reuse (s : PoolState) (avail : List (Option Nat)) (oid : Nat)
    (pb : PooledBackend) (now : Nat) (hInv : AvailInv s avail)
    (hobj : s.objs.get? oid = some pb) :
    AvailInv { s with objs := bumpAt s.objs oid 1 now,
                      handles := s.handles ++ [some oid] }
      (avail ++ [some oid]) := by
  obtain ⟨hlen, hbound, hcnt⟩ := hInv
  refine ⟨by simp [hlen], ?_, ?_⟩
  · intro i o hi
    rcases get?_append_cases avail (some oid) i (some o) hi with hold | ⟨_, hv⟩
    · have := hbound i o hold
      simpa [bumpAt_length] using this
    · have hoid : o = oid := by simpa using hv
      obtain ⟨hlt, -⟩ := List.get?_eq_some.mp hobj
      simp only [bumpAt_length]
      omega
  · intro o pb' hge
    by_cases ho : o = oid
    · subst ho
      rw [bumpAt_get?_self s.objs o 1 now pb hobj] at hge
      have hpb' : pb' = ⟨pb.backend, pb.in_use + 1, now⟩ := by simpa using hge.symm
      subst hpb'
      have hc := hcnt o pb hobj
      simp only [List.count_append, List.count_cons, List.count_nil, beq_self_eq_true,
        if_true, hc]
      push_cast
      ring
    · rw [bumpAt_get?_ne s.objs oid 1 now o ho] at hge
      have hc := hcnt o pb' hge
      have hne : ¬ (oid = o) := fun h => ho h.symm
      simpa [List.count_append, List.count_cons, hne] using hc

lemma availInv_fresh (s : PoolState) (avail : List (Option Nat)) (k : String)
    (now : Nat) (hInv : AvailInv s avail) :
    AvailInv { objs := s.objs ++ [⟨s.next_backend, 1, now⟩],
               table := assocSet s.table k s.objs.length,
               next_backend := s.next_backend + 1,
               handles := s.handles ++ [some s.objs.length] }
      (avail ++ [some s.objs.length]) := by
  obtain ⟨hlen, hbound, hcnt⟩ := hInv
  refine ⟨by simp [hlen], ?_, ?_⟩
  · intro i o hi
    rcases get?_append_cases avail (some s.objs.length) i (some o) hi with hold | ⟨_, hv⟩
    · have := hbound i o hold
      simp only [List.length_append, List.length_cons, List.length_nil]
      omega
    · have : o = s.objs.length := by simpa using hv
      subst this
      simp only [List.length_append, List.length_cons, List.length_nil]
      omega
  · intro o pb' hge
    rcases get?_append_cases s.objs ⟨s.next_backend, 1, now⟩ o pb' hge with hold | ⟨hoL, hv⟩
    · have hcount := hcnt o pb' hold
      have hne : ¬ (s.objs.length = o) := by
        obtain ⟨hlt, -⟩ := List.get?_eq_some.mp hold
        omega
      simpa [List.count_append, List.count_cons, hne] using hcount
    · subst hoL
      subst hv
      have hz := count_none_of_bound avail s.objs.length hbound
      simp [List.count_append, List.count_singleton, hz]

lemma availInv_noneAppend (s : PoolState) (avail : List (Option Nat))
    (hInv : AvailInv s avail) :
    AvailInv { s with next_backend := s.next_backend + 1,
                      handles := s.handles ++ [none] } (avail ++ [none]) := by
  obtain ⟨hlen, hbound, hcnt⟩ := hInv
  refine ⟨by simp [hlen], ?_, ?_⟩
  · intro i o hi
    rcases get?_append_cases avail none i (some o) hi with hold | ⟨_, hv⟩
    · exact hbound i o hold
    · cases hv
  · intro o pb hge
    have := hcnt o pb hge
    simpa [List.count_append, List.count_cons] using this

lemma availInv_release_bump (s : PoolState) (avail : List (Option Nat))
    (h oid now : Nat) (hInv : AvailInv s avail)
    (hav : avail.get? h = some (some oid)) :
    AvailInv { s with objs := bumpAt s.objs oid (-1) now } (avail.set h none) := by
  obtain ⟨hlen, hbound, hcnt⟩ := hInv
  have hoidlt : oid < s.objs.length := hbound h oid hav
  refine ⟨by simp [hlen], ?_, ?_⟩
  · intro i o hi
    by_cases hih : h = i
    · subst hih
      have hhlt : h < avail.length := by
        obtain ⟨hlt, -⟩ := List.get?_eq_some.mp hav
        exact hlt
      rw [List.get?_set_eq_of_lt none hhlt] at hi
      cases hi
    · rw [List.get?_set_ne none avail hih] at hi
      have := hbound i o hi
      simpa [bumpAt_length] using this
  · intro o pb' hge
    by_cases ho : o = oid
    · subst ho
      have hpb0 : s.objs.get? o = some (s.objs.get ⟨o, hoidlt⟩) := List.get?_eq_get hoidlt
      rw [bumpAt_get?_self s.objs o (-1) now _ hpb0] at hge
      have hpb' : pb' = ⟨(s.objs.get ⟨o, hoidlt⟩).backend,
          (s.objs.get ⟨o, hoidlt⟩).in_use + (-1), now⟩ := by simpa using hge.symm
      subst hpb'
      have hc := hcnt o _ hpb0
      have hset := count_set_none avail h (some o) o hav
      simp only [if_pos rfl] at hset
      simp only []
      rw [hc]
      have : (avail.set h none).count (some o) + 1 = avail.count (some o) := hset
      omega
    · rw [bumpAt_get?_ne s.objs oid (-1) now o ho] at hge
      have hc := hcnt o pb' hge
      have hset := count_set_none avail h (some oid) o hav
      have hne : ¬ ((some oid : Option Nat) = some o) := by
        simpa using fun he => ho he.symm
      rw [if_neg hne] at hset
      rw [hc]
      omega

lemma availInv_set_none_noop (s : PoolState) (avail : List (Option Nat)) (h : Nat)
    (hInv : AvailInv s avail) (hav : avail.get? h = some none) :
    AvailInv s (avail.set h none) := by
  obtain ⟨hlen, hbound, hcnt⟩ := hInv
  refine ⟨by simp [hlen], ?_, ?_⟩
  · intro i o hi
    by_cases hih : h = i
    · subst hih
      have hhlt : h < avail.length := by
        obtain ⟨hlt, -⟩ := List.get?_eq_some.mp hav
        exact hlt
      rw [List.get?_set_eq_of_lt none hhlt] at hi
      cases hi
    · rw [List.get?_set_ne none avail hih] at hi
      exact hbound i o hi
  · intro o pb' hge
    have hc := hcnt o pb' hge
    have hset := count_set_none avail h none o hav
    rw [if_neg (show ¬ ((none : Option Nat) = some o) by simp)] at hset
    rw [hc]
    omega

lemma pool_avail_aux (status : Nat → ConnectionStatus) (tr : List PoolOp) :
    ∀ (s : PoolState) (avail : List (Option Nat)),
      AvailInv s avail →
      wfTrace s.handles.length tr = true →
      (relIndices tr).Nodup →
      (∀ j ∈ relIndices tr, avail.get? j = s.handles.get? j) →
      ∀ pb ∈ (runPool status s tr).objs, 0 ≤ pb.in_use := by
  induction tr with
  | nil =>
    intro s avail hInv _ _ _ pb hpb
    obtain ⟨i, hi⟩ := List.mem_iff_get?.mp hpb
    have := hInv.2.2 i pb hi
    simp only [runPool, List.foldl_nil] at hi ⊢
    rw [hInv.2.2 i pb hi]
    exact Int.natCast_nonneg _
  | cons op rest ih =>
    intro s avail hInv hwf hnd hlive
    simp only [runPool, List.foldl_cons]
    cases op with
    | acquire key now =>
      have hwf' : wfTrace (s.handles.length + 1) rest = true := by
        simpa [wfTrace] using hwf
      have hnd' : (relIndices rest).Nodup := by simpa [relIndices] using hnd
      cases key with
      | none =>
        have hst : stepPool status s (.acquire none now) =
            { s with next_backend := s.next_backend + 1,
                     handles := s.handles ++ [none] } := by
          simp [stepPool, acquire_backend]
        rw [hst]
        apply ih _ (avail ++ [none]) (availInv_noneAppend s avail hInv)
        · simpa using hwf'
        · exact hnd'
        · intro j hj
          exact liveAppend avail s.handles none j hInv.1 (hlive j (by simpa [relIndices] using hj))
      | some k =>
        have hliveRest : ∀ j ∈ relIndices rest,
            (avail ++ [none]).get? j = (s.handles ++ [none]).get? j := by
          intro j hj
          exact liveAppend avail s.handles none j hInv.1 (hlive j (by simpa [relIndices] using hj))
        cases hget : assocGet s.table k with
        | none =>
          have hst : stepPool status s (.acquire (some k) now) =
              { objs := s.objs ++ [⟨s.next_backend, 1, now⟩],
                table := assocSet s.table k s.objs.length,
                next_backend := s.next_backend + 1,
                handles := s.handles ++ [some s.objs.length] } := by
            simp [stepPool, acquire_backend, hget, -List.get?_eq_getElem?]
          rw [hst]
          apply ih _ (avail ++ [some s.objs.length]) (availInv_fresh s avail k now hInv)
          · simpa using hwf'
          · exact hnd'
          · intro j hj
            exact liveAppend avail s.handles _ j hInv.1 (hlive j (by simpa [relIndices] using hj))
        | some oid =>
          cases hobj : s.objs.get? oid with
          | none =>
            have hst : stepPool status s (.acquire (some k) now) =
                { objs := s.objs ++ [⟨s.next_backend, 1, now⟩],
                  table := assocSet s.table k s.objs.length,
                  next_backend := s.next_backend + 1,
                  handles := s.handles ++ [some s.objs.length] } := by
              simp [stepPool, acquire_backend, hget, hobj, -List.get?_eq_getElem?]
            rw [hst]
            apply ih _ (avail ++ [some s.objs.length]) (availInv_fresh s avail k now hInv)
            · simpa using hwf'
            · exact hnd'
            · intro j hj
              exact liveAppend avail s.handles _ j hInv.1 (hlive j (by simpa [relIndices] using hj))
          | some pb =>
            by_cases hcon : status pb.backend = .connected
            · have hst : stepPool status s (.acquire (some k) now) =
                  { s with objs := bumpAt s.objs oid 1 now,
                           handles := s.handles ++ [some oid] } := by
                simp [stepPool, acquire_backend, hget, hobj, hcon, -List.get?_eq_getElem?]
              rw [hst]
              apply ih _ (avail ++ [some oid]) (availInv_reuse s avail oid pb now hInv hobj)
              · simpa using hwf'
              · exact hnd'
              · intro j hj
                exact liveAppend avail s.handles _ j hInv.1 (hlive j (by simpa [relIndices] using hj))
            · have hst : stepPool status s (.acquire (some k) now) =
                  { objs := s.objs ++ [⟨s.next_backend, 1, now⟩],
                    table := assocSet s.table k s.objs.length,
                    next_backend := s.next_backend + 1,
                    handles := s.handles ++ [some s.objs.length] } := by
                simp [stepPool, acquire_backend, hget, hobj, hcon, -List.get?_eq_getElem?]
              rw [hst]
              apply ih _ (avail ++ [some s.objs.length]) (availInv_fresh s avail k now hInv)
              · simpa using hwf'
              · exact hnd'
              · intro j hj
                exact liveAppend avail s.handles _ j hInv.1 (hlive j (by simpa [relIndices] using hj))
    | release h now =>
      have hwfparts : h < s.handles.length ∧ wfTrace s.handles.length rest = true := by
        simpa [wfTrace, Bool.and_eq_true, decide_eq_true_eq] using hwf
      have hndparts : h ∉ relIndices rest ∧ (relIndices rest).Nodup := by
        simpa [relIndices, List.nodup_cons] using hnd
      have hlivh : avail.get? h = s.handles.get? h :=
        hlive h (by simp [relIndices])
      have hliveRest : ∀ j ∈ relIndices rest, (avail.set h none).get? j = s.handles.get? j := by
        intro j hj
        have hne : h ≠ j := fun he => hndparts.1 (he ▸ hj)
        rw [List.get?_set_ne none avail hne]
        exact hlive j (by simp [relIndices, hj])
      have hvet : s.handles.get? h = some (s.handles.get ⟨h, hwfparts.1⟩) :=
        List.get?_eq_get hwfparts.1
      cases hv : s.handles.get ⟨h, hwfparts.1⟩ with
      | none =>
        have hst : stepPool status s (.release h now) = s := by
          simp only [stepPool, hvet, hv]
        rw [hst]
        apply ih _ (avail.set h none)
          (availInv_set_none_noop s avail h hInv (by rw [hlivh, hvet, hv]))
        · exact hwfparts.2
        · exact hndparts.2
        · exact hliveRest
      | some oid =>
        have hst : stepPool status s (.release h now) =
            { s with objs := bumpAt s.objs oid (-1) now } := by
          simp only [stepPool, hvet, hv]
        rw [hst]
        apply ih _ (avail.set h none)
          (availInv_release_bump s avail h oid now hInv (by rw [hlivh, hvet, hv]))
        · exact hwfparts.2
        · exact hndparts.2
        · exact hliveRest

lemma acquire_entry (status : Nat → ConnectionStatus) (now : Nat) (s : PoolState)
    (k : String) :
    ∃ oid pb,
      assocGet (acquire_backend status now s (some k)).st.table k = some oid ∧
      (acquire_backend status now s (some k)).st.objs.get? oid = some pb ∧
      pb.backend = (acquire_backend status now s (some k)).backend := by
  cases hget : assocGet s.table k with
  | none =>
    refine ⟨s.objs.length, ⟨s.next_backend, 1, now⟩, ?_, ?_, ?_⟩
    · simp [acquire_backend, hget, assocGet_assocSet, -List.get?_eq_getElem?]
    · simp [acquire_backend, hget, List.get?_concat_length, -List.get?_eq_getElem?]
    · simp [acquire_backend, hget, -List.get?_eq_getElem?]
  | some oid =>
    cases hobj : s.objs.get? oid with
    | none =>
      refine ⟨s.objs.length, ⟨s.next_backend, 1, now⟩, ?_, ?_, ?_⟩
      · simp [acquire_backend, hget, hobj, assocGet_assocSet, -List.get?_eq_getElem?]
      · simp [acquire_backend, hget, hobj, List.get?_concat_length, -List.get?_eq_getElem?]
      · simp [acquire_backend, hget, hobj, -List.get?_eq_getElem?]
    | some pb =>
      by_cases hcon : status pb.backend = .connected
      · refine ⟨oid, ⟨pb.backend, pb.in_use + 1, now⟩, ?_, ?_, ?_⟩
        · simp [acquire_backend, hget, hobj, hcon, -List.get?_eq_getElem?]
        · simp only [acquire_backend, hget, hobj, hcon, if_pos, reduceIte,
            -List.get?_eq_getElem?]
          exact bumpAt_get?_self s.objs oid 1 now pb hobj
        · simp [acquire_backend, hget, hobj, hcon, -List.get?_eq_getElem?]
      · refine ⟨s.objs.length, ⟨s.next_backend, 1, now⟩, ?_, ?_, ?_⟩
        · simp [acquire_backend, hget, hobj, hcon, assocGet_assocSet, -List.get?_eq_getElem?]
        · simp [acquire_backend, hget, hobj, hcon, List.get?_concat_length, -List.get?_eq_getElem?]
        · simp [acquire_backend, hget, hobj, hcon, -List.get?_eq_getElem?]

lemma acquire_inv (status : Nat → ConnectionStatus) (now : Nat) (s : PoolState)
    (key : Option String) (hInv : PoolInv s) :
    PoolInv (acquire_backend status now s key).st ∧
    (acquire_backend status now s key).backend <
      (acquire_backend status now s key).st.next_backend := by
  obtain ⟨hb, ht⟩ := hInv
  cases key with
  | none =>
    refine ⟨⟨?_, ?_⟩, ?_⟩
    · intro pb hpb
      simp only [acquire_backend] at hpb ⊢
      exact Nat.lt_succ_of_lt (hb pb hpb)
    · intro kv hkv
      simp only [acquire_backend] at hkv ⊢
      exact ht kv hkv
    · simp only [acquire_backend]
      exact Nat.lt_succ_self _
  | some k =>
    have hfresh : PoolInv
        { objs := s.objs ++ [⟨s.next_backend, 1, now⟩],
          table := assocSet s.table k s.objs.length,
          next_backend := s.next_backend + 1,
          handles := s.handles ++ [some s.objs.length] } ∧
        s.next_backend < s.next_backend + 1 := by
      refine ⟨⟨?_, ?_⟩, Nat.lt_succ_self _⟩
      · intro pb hpb
        rcases List.mem_append.mp hpb with h | h
        · exact Nat.lt_succ_of_lt (hb pb h)
        · simp at h
          rw [h]
          simp
      · intro kv hkv
        rcases mem_assocSet s.table k s.objs.length kv hkv with h | h
        · have := ht kv h
          simp only [List.length_append, List.length_cons, List.length_nil]
          omega
        · rw [h]
          simp only [List.length_append, List.length_cons, List.length_nil]
          omega
    cases hget : assocGet s.table k with
    | none =>
      simpa [acquire_backend, hget, -List.get?_eq_getElem?] using hfresh
    | some oid =>
      cases hobj : s.objs.get? oid with
      | none =>
        simpa [acquire_backend, hget, hobj, -List.get?_eq_getElem?] using hfresh
      | some pb =>
        by_cases hcon : status pb.backend = .connected
        · have hmem : pb ∈ s.objs := by
            obtain ⟨hlt, hget'⟩ := List.get?_eq_some.mp hobj
            exact hget' ▸ List.get_mem s.objs oid hlt
          refine ⟨⟨?_, ?_⟩, ?_⟩ <;>
            simp only [acquire_backend, hget, hobj, hcon, reduceIte, -List.get?_eq_getElem?]
          · intro pb' hpb'
            have hmap : pb'.backend ∈ (bumpAt s.objs oid 1 now).map (fun x => x.backend) :=
              List.mem_map_of_mem _ hpb'
            rw [bumpAt_backend_map] at hmap
            obtain ⟨pb0, hpb0, heq⟩ := List.mem_map.mp hmap
            exact heq ▸ hb pb0 hpb0
          · intro kv hkv
            have := ht kv hkv
            simpa [bumpAt_length] using this
          · exact hb pb hmem
        · simpa [acquire_backend, hget, hobj, hcon, -List.get?_eq_getElem?] using hfresh

lemma acquire_reuse (status : Nat → ConnectionStatus) (now : Nat) (s : PoolState)
    (k : String) (oid : Nat) (pb : PooledBackend)
    (hget : assocGet s.table k = some oid) (hobj : s.objs.get? oid = some pb)
    (hcon : status pb.backend = .connected) :
    (acquire_backend status now s (some k)).backend = pb.backend := by
  simp [acquire_backend, hget, hobj, hcon, -List.get?_eq_getElem?]

lemma acquire_stale (status : Nat → ConnectionStatus) (now : Nat) (s : PoolState)
    (k : String) (oid : Nat) (pb : PooledBackend)
    (hget : assocGet s.table k = some oid) (hobj : s.objs.get? oid = some pb)
    (hcon : ¬ status pb.backend = .connected) :
    (acquire_backend status now s (some k)).backend = s.next_backend ∧
    (acquire_backend status now s (some k)).st.objs =
      s.objs ++ [⟨s.next_backend, 1, now⟩] ∧
    assocGet (acquire_backend status now s (some k)).st.table k =
      some s.objs.length := by
  refine ⟨?_, ?_, ?_⟩ <;>
    simp [acquire_backend, hget, hobj, hcon, assocGet_assocSet, -List.get?_eq_getElem?]

/-! ## Lemmas about the heredoc scanner -/

lemma heredocTry_eofBlock (body : Str)
    (h : findSubIdx ("\nEOF".toList) ('\n' :: (body ++ "\nEOF".toList)) = some (body.length + 1)) :
    heredocTry ('E' :: 'O' :: 'F' :: '\n' :: (body ++ "\nEOF".toList)) = some (body.length + 8) := by
  show (match findSubIdx ('\n' :: 'E' :: 'O' :: 'F' ::[]) ('\n' :: (body ++ "\nEOF".toList)) with
        | some i => some (3 + 0 + (i + 1 + 3))
        | none => heredocTryLen ('E' :: 'O' :: 'F' :: '\n' :: (body ++ "\nEOF".toList)) ('E' :: 'O' :: 'F' ::[]) 2).map
      (fun n => 0 + 0 + n) = some (body.length + 8)
  rw [show findSubIdx ('\n' :: 'E' :: 'O' :: 'F' ::[]) ('\n' :: (body ++ "\nEOF".toList)) = some (body.length + 1) from h]
  show some (0 + 0 + (3 + 0 + (body.length + 1 + 1 + 3))) = some (body.length + 8)
  congr 1
  omega

lemma stripGo_nil (f : Nat) : stripGo f [] = [] := by cases f <;> rfl

lemma strip_eofBlock (body : Str) (f : Nat)
    (h : findSubIdx ("\nEOF".toList) ('\n' :: (body ++ "\nEOF".toList)) = some (body.length + 1)) :
    stripGo (f + 5) ('c' :: 'a' :: 't' :: ' ' :: '<' :: '<' :: 'E' :: 'O' :: 'F' :: '\n' :: (body ++ "\nEOF".toList)) =
      "cat <<HEREDOC_PLACEHOLDER".toList := by
  show 'c' :: 'a' :: 't' :: ' ' :: stripGo (f + 1) ('<' :: '<' :: 'E' :: 'O' :: 'F' :: '\n' :: (body ++ "\nEOF".toList)) =
      "cat <<HEREDOC_PLACEHOLDER".toList
  rw [show stripGo (f + 1) ('<' :: '<' :: 'E' :: 'O' :: 'F' :: '\n' :: (body ++ "\nEOF".toList)) =
        "<<HEREDOC_PLACEHOLDER".toList ++
          stripGo f (('E' :: 'O' :: 'F' :: '\n' :: (body ++ "\nEOF".toList)).drop (body.length + 8)) by
    show (match heredocTry ('E' :: 'O' :: 'F' :: '\n' :: (body ++ "\nEOF".toList)) with
          | some n => "<<HEREDOC_PLACEHOLDER".toList ++
              stripGo f (('E' :: 'O' :: 'F' :: '\n' :: (body ++ "\nEOF".toList)).drop n)
          | none => '<' :: stripGo f ('<' :: 'E' :: 'O' :: 'F' :: '\n' :: (body ++ "\nEOF".toList))) = _
    rw [heredocTry_eofBlock body h]]
  rw [List.drop_eq_nil_of_le (by simp), stripGo_nil]
  rfl

/-! ## Claims -/

/-- C1 (counterexample): with the relative boundary `ws`, the call
`validate_within_boundary("a", "ws")` returns `ws/a`, which neither equals
the normalized boundary `/ws` nor starts with `/ws/` — a third outcome the
claim excludes. -/
theorem validate_boundary_norm_cx :
    validate_within_boundary ("a".toList) ("ws".toList) = .ok ("ws/a".toList) ∧
    withinCheck (pathResolve ("ws".toList)) ("ws/a".toList) = false := by decide

/-- C1 (amended): for every path `p` and every *absolute* boundary `b`,
`validate_within_boundary(p, b)` has exactly two outcomes: a returned path
that equals the normalized boundary or starts with the normalized boundary
plus the separator, or a raised `PathEscapeError` carrying the offending
input `p`. -/
theorem validate_boundary_two_outcomes (p b : Str) (hb : isabs b = true) :
    (∀ r, validate_within_boundary p b = .ok r → withinCheck (pathResolve b) r = true) ∧
    (∀ e, validate_within_boundary p b = .error e → e = p) := by
  constructor
  · intro r hr
    simp only [validate_within_boundary] at hr
    by_cases h1 : (isabs p && withinCheck (pathResolve b) (pathResolve p)) = true
    · rw [if_pos h1] at hr
      cases hr
      exact ((Bool.and_eq_true _ _).mp h1).2
    · rw [if_neg h1] at hr
      by_cases h2 : (!(withinCheck (pathResolve b)
          (pathResolve (joinP b (if isabs p = true then lstripSlash p else p))))) = true
      · rw [if_pos h2] at hr
        cases hr
      · rw [if_neg h2] at hr
        cases hr
        have habs : isabs (joinP b (if isabs p = true then lstripSlash p else p)) = true :=
          isabs_joinP _ _ hb
        rw [← pathResolve_of_isabs _ habs]
        simpa using h2
  · intro e he
    exact validate_error_payload p b e he

/-- C1 (witness): the amended theorem applied at `p = "a"`, `b = "/ws"`. -/
theorem validate_boundary_two_outcomes_witness :
    isabs ("/ws".toList) = true ∧
    withinCheck (pathResolve ("/ws".toList)) ("/ws/a".toList) = true :=
  ⟨by decide,
    (validate_boundary_two_outcomes ("a".toList) ("/ws".toList) (by decide)).1
      ("/ws/a".toList) (by decide)⟩

/-- C2 (counterexample): `MemoryBackend.write` performs no boundary
validation: with root `/workspace`, writing the key `../../etc/passwd`
succeeds and mutates the store even though that key fails
`validate_within_boundary` against the backend's root. -/
theorem memory_write_unvalidated_cx :
    validateFails ("/workspace".toList) ("../../etc/passwd".toList) = true ∧
    (memWrite ⟨"/workspace".toList, []⟩ "../../etc/passwd" (.text "x")).store =
      [("../../etc/passwd", MemVal.text "x")] ∧
    (memWrite ⟨"/workspace".toList, []⟩ "../../etc/passwd" (.text "x")).store ≠
      ([] : List (String × MemVal)) := by decide

/-- C2 (amended): on the local filesystem backend, every path-taking
operation (read, write, rename, rm, readdir, mkdir, touch, exists, stat)
validates its path(s) against the backend root before any OS primitive runs:
whenever validation rejects one of the operation's paths, the operation
raises `PathEscapeError` and — for every possible behaviour of the OS
primitives — the filesystem state is unchanged.  (The raw memory backend
performs no such validation; see the counterexample.) -/
theorem local_validation_precedes_mutation {FS : Type} (P : OsPrims FS)
    (root cwd : Str) (fs : FS) (op : LocalOp)
    (h : (opPaths op).any (fun q => validateFails root q) = true) :
    isEscError (runLocal P root cwd fs op).1 = true ∧
    (runLocal P root cwd fs op).2 = fs := by
  cases op with
  | rename o n =>
    simp only [opPaths, List.any_cons, List.any_nil, Bool.or_false] at h
    by_cases ho : validateFails root o = true
    · have he := validate_error_of_fails root o ho
      simp [runLocal, local_resolve_path, he, isEscError]
    · have hn : validateFails root n = true := by
        rcases (Bool.or_eq_true _ _).mp h with h' | h'
        · exact absurd h' ho
        · exact h'
      obtain ⟨r, hr⟩ := validate_ok_exists root o (Bool.eq_false_iff.mpr ho)
      have he := validate_error_of_fails root n hn
      simp [runLocal, local_resolve_path, hr, he, isEscError]
  | read p buffer =>
    simp only [opPaths, List.any_cons, List.any_nil, Bool.or_false] at h
    have he := validate_error_of_fails root p h
    simp [runLocal, local_resolve_path, he, isEscError]
  | write p content =>
    simp only [opPaths, List.any_cons, List.any_nil, Bool.or_false] at h
    have he := validate_error_of_fails root p h
    simp [runLocal, local_resolve_path, he, isEscError]
  | rm p recursive force =>
    simp only [opPaths, List.any_cons, List.any_nil, Bool.or_false] at h
    have he := validate_error_of_fails root p h
    simp [runLocal, local_resolve_path, he, isEscError]
  | readdir p =>
    simp only [opPaths, List.any_cons, List.any_nil, Bool.or_false] at h
    have he := validate_error_of_fails root p h
    simp [runLocal, local_resolve_path, he, isEscError]
  | mkdir p recursive =>
    simp only [opPaths, List.any_cons, List.any_nil, Bool.or_false] at h
    have he := validate_error_of_fails root p h
    simp [runLocal, local_resolve_path, he, isEscError]
  | touch p =>
    simp only [opPaths, List.any_cons, List.any_nil, Bool.or_false] at h
    have he := validate_error_of_fails root p h
    simp [runLocal, local_resolve_path, he, isEscError]
  | existsOp p =>
    simp only [opPaths, List.any_cons, List.any_nil, Bool.or_false] at h
    have he := validate_error_of_fails root p h
    simp [runLocal, local_resolve_path, he, isEscError]
  | stat p =>
    simp only [opPaths, List.any_cons, List.any_nil, Bool.or_false] at h
    have he := validate_error_of_fails root p h
    simp [runLocal, local_resolve_path, he, isEscError]

/-- C2 (witness): a write of `../x` against root `/workspace` on the trivial
OS interface raises `PathEscapeError` and leaves the state unchanged. -/
theorem local_validation_precedes_mutation_witness :
    (opPaths (LocalOp.write ("../x".toList) (.text "v"))).any
      (fun q => validateFails ("/workspace".toList) q) = true ∧
    isEscError (runLocal unitPrims ("/workspace".toList) ("/".toList) ()
      (LocalOp.write ("../x".toList) (.text "v"))).1 = true ∧
    (runLocal unitPrims ("/workspace".toList) ("/".toList) ()
      (LocalOp.write ("../x".toList) (.text "v"))).2 = () :=
  ⟨by decide,
    (local_validation_precedes_mutation unitPrims ("/workspace".toList) ("/".toList) ()
      (LocalOp.write ("../x".toList) (.text "v")) (by decide)).1,
    (local_validation_precedes_mutation unitPrims ("/workspace".toList) ("/".toList) ()
      (LocalOp.write ("../x".toList) (.text "v")) (by decide)).2⟩

/-- C3: for an absolute `p` whose normalization lies within the normalized
boundary, `validate_within_boundary` returns the normalized `p` as is (no
joining with the boundary); for an absolute `p` outside the boundary the
call behaves exactly like the call on `p` with its leading slashes stripped
(reinterpreted as relative rather than rejected outright).  In particular
`/etc/passwd` against `/workspace` resolves to `/workspace/etc/passwd`, and
`/workspace/a/b` against `/workspace` is returned unchanged. -/
theorem absolute_path_reinterpretation (p b : Str) (hp : isabs p = true) :
    (withinCheck (pathResolve b) (pathResolve p) = true →
       validate_within_boundary p b = .ok (pathResolve p)) ∧
    (withinCheck (pathResolve b) (pathResolve p) = false →
       (validate_within_boundary p b).toOption =
         (validate_within_boundary (lstripSlash p) b).toOption) ∧
    validate_within_boundary ("/etc/passwd".toList) ("/workspace".toList) =
      .ok ("/workspace/etc/passwd".toList) ∧
    validate_within_boundary ("/workspace/a/b".toList) ("/workspace".toList) =
      .ok ("/workspace/a/b".toList) := by
  refine ⟨?_, ?_, by decide, by decide⟩
  · intro hw
    simp only [validate_within_boundary]
    rw [if_pos (by rw [hp, hw]; rfl)]
  · intro hw
    simp only [validate_within_boundary]
    rw [if_neg (show ¬((isabs p &&
          withinCheck (pathResolve b) (pathResolve p)) = true) by
        rw [hw, Bool.and_false]; simp)]
    rw [if_neg (show ¬((isabs (lstripSlash p) &&
          withinCheck (pathResolve b) (pathResolve (lstripSlash p))) = true) by
        rw [isabs_lstripSlash, Bool.false_and]; simp)]
    simp only [hp, isabs_lstripSlash, reduceIte]
    cases hc : withinCheck (pathResolve b) (pathResolve (joinP b (lstripSlash p))) <;>
      simp [hc, Except.toOption]

/-- C3 (witness): the theorem applied at `p = "/etc/passwd"`,
`b = "/workspace"` (an absolute path outside the boundary). -/
theorem absolute_path_reinterpretation_witness :
    isabs ("/etc/passwd".toList) = true ∧
    (validate_within_boundary ("/etc/passwd".toList) ("/workspace".toList)).toOption =
      (validate_within_boundary (lstripSlash ("/etc/passwd".toList))
        ("/workspace".toList)).toOption :=
  ⟨by decide,
    (absolute_path_reinterpretation ("/etc/passwd".toList) ("/workspace".toList)
      (by decide)).2.1 (by decide)⟩

/-- C4: `is_command_safe("rm -rf /")` is unsafe, while
`is_command_safe("gcloud storage rsync gs://b .")` is safe even though the
lowercased command matches the generic `rsync` dangerous pattern, because
the allow-list is consulted first and a match exempts the command. -/
theorem safety_classifier_verdicts :
    (is_command_safe ("rm -rf /".toList) []).safe = false ∧
    (is_command_safe ("gcloud storage rsync gs://b .".toList) []).safe = true ∧
    reSearch (wordRE ("rsync".toList))
      (pyLower (pyStrip ("gcloud storage rsync gs://b .".toList))) = true ∧
    _is_allowed ("gcloud storage rsync gs://b .".toList) [] = true ∧
    is_dangerous ("gcloud storage rsync gs://b .".toList) [] = false := by decide

/-- C5 (counterexample): the claim fails for bodies that embed a newline
immediately followed by the tag.  In `cat <<EOF\nx\nEOFtail cd ../\nEOF` the
body `x\nEOFtail cd ../` lies between the `<<EOF` opener and the matching
closing line containing only `EOF` (the final line) and contains both `cd`
and `../`; yet the regex `[\s\S]*?\n\1` closes the heredoc at the embedded
`\nEOF` inside `EOFtail`, so stripping yields
`cat <<HEREDOC_PLACEHOLDERtail cd ../\nEOF` and the escape classification
fires on the leaked body text. -/
theorem heredoc_embedded_terminator_cx :
    ("cat <<EOF\n".toList) ++ ("x\nEOFtail cd ../".toList) ++ ("\nEOF".toList) =
      ("cat <<EOF\nx\nEOFtail cd ../\nEOF".toList) ∧
    (findSubIdx ("cd".toList) ("x\nEOFtail cd ../".toList)).isSome = true ∧
    (findSubIdx ("../".toList) ("x\nEOFtail cd ../".toList)).isSome = true ∧
    _strip_heredoc_content ("cat <<EOF\nx\nEOFtail cd ../\nEOF".toList) =
      ("cat <<HEREDOC_PLACEHOLDERtail cd ../\nEOF".toList) ∧
    is_escaping_workspace ("cat <<EOF\nx\nEOFtail cd ../\nEOF".toList) = true := by decide

/-- C5 (amended): for a heredoc command `cat <<EOF\n<body>\nEOF` whose body
does not itself contain a newline immediately followed by the tag
(hypothesis: the first occurrence of the newline-`EOF` terminator in the
scanned region is the final one), the escape classification sees only the
command with the heredoc replaced by `<<HEREDOC_PLACEHOLDER`, so
occurrences of `cd` or `../` inside the body never make it fire.  Bodies
embedding newline-plus-tag close the heredoc early and are not protected
(see the counterexample). -/
theorem heredoc_body_not_classified (body : Str)
    (h : findSubIdx ("\nEOF".toList) ('\n' :: (body ++ "\nEOF".toList)) =
      some (body.length + 1)) :
    _strip_heredoc_content (("cat <<EOF\n".toList) ++ body ++ ("\nEOF".toList)) =
      "cat <<HEREDOC_PLACEHOLDER".toList ∧
    is_escaping_workspace (("cat <<EOF\n".toList) ++ body ++ ("\nEOF".toList)) = false := by
  have hcmd : ("cat <<EOF\n".toList) ++ body ++ ("\nEOF".toList) =
      'c' :: 'a' :: 't' :: ' ' :: '<' :: '<' :: 'E' :: 'O' :: 'F' :: '\n' :: (body ++ "\nEOF".toList) := by
    simp
  have hstrip : _strip_heredoc_content (("cat <<EOF\n".toList) ++ body ++ ("\nEOF".toList)) =
      "cat <<HEREDOC_PLACEHOLDER".toList := by
    unfold _strip_heredoc_content
    rw [hcmd]
    have hlen : ('c' :: 'a' :: 't' :: ' ' :: '<' :: '<' :: 'E' :: 'O' :: 'F' :: '\n' :: (body ++ "\nEOF".toList)).length + 1 =
        (body.length + 10) + 5 := by simp
    rw [hlen, strip_eofBlock body _ h]
  refine ⟨hstrip, ?_⟩
  unfold is_escaping_workspace
  rw [hstrip]
  decide

/-- C5 (witness): the theorem applied to the body `cd ../..`, which contains
both `cd` and `../`. -/
theorem heredoc_body_not_classified_witness :
    findSubIdx ("\nEOF".toList) ('\n' :: (("cd ../..".toList) ++ "\nEOF".toList)) =
      some (("cd ../..".toList).length + 1) ∧
    is_escaping_workspace (("cat <<EOF\n".toList) ++ ("cd ../..".toList) ++
      ("\nEOF".toList)) = false :=
  ⟨by decide, (heredoc_body_not_classified ("cd ../..".toList) (by decide)).2⟩

/-- C6 (counterexample): listeners are kept in a Python `set`, so the
iteration order of `set_status` is runtime-chosen, not registration order:
with listeners registered in order `[0, 1]`, the admissible iteration order
`[1, 0]` (a permutation of the set) delivers the event to listener 1 first. -/
theorem status_delivery_order_cx :
    ([1, 0] : List Nat).Perm [0, 1] ∧
    ((set_status ⟨.connected, [0, 1]⟩ .destroyed none 5 [1, 0]
        (fun _ _ => .ok ())).2.map Prod.fst) = [1, 0] ∧
    ([1, 0] : List Nat) ≠ [0, 1] := by decide

/-- C6 (amended): `set_status` to the current status emits zero events; a
real transition builds the immutable event (from, to, timestamp, error) and
delivers it synchronously exactly once to every registered listener — in a
runtime-chosen order over the listener set, not necessarily registration
order — and an exception raised by a listener is swallowed: delivery, the
status update and the caller are unaffected by `behave`. -/
theorem status_transition_event_delivery (m : ConnectionStatusManager)
    (new_status : ConnectionStatus) (err : Option String) (now : Nat)
    (order : List Nat) (behave : Nat → StatusChangeEvent → Except String Unit)
    (hperm : order.Perm m.listeners) (hnd : m.listeners.Nodup) :
    (m.status = new_status → set_status m new_status err now order behave = (m, [])) ∧
    (m.status ≠ new_status →
      (set_status m new_status err now order behave).1 =
        { m with status := new_status } ∧
      (set_status m new_status err now order behave).2 =
        order.map (fun l => (l, behave l
          { from_status := m.status, to_status := new_status,
            timestamp := now, error := err })) ∧
      ∀ l ∈ m.listeners,
        ((set_status m new_status err now order behave).2.map Prod.fst).count l = 1) := by
  constructor
  · intro hsame
    simp [set_status, hsame]
  · intro hdiff
    simp only [set_status, if_neg hdiff]
    refine ⟨trivial, trivial, ?_⟩
    intro l hl
    rw [List.map_map]
    have hid : (Prod.fst ∘ fun l => (l, behave l
        { from_status := m.status, to_status := new_status,
          timestamp := now, error := err })) = id := rfl
    rw [hid, List.map_id]
    rw [hperm.count_eq]
    exact List.count_eq_one_of_mem hnd hl

/-- C6 (witness): two listeners, iteration order `[1, 0]`, listener 0
raising: listener 0 still receives the destroy event exactly once. -/
theorem status_transition_event_delivery_witness :
    ([1, 0] : List Nat).Perm [0, 1] ∧ ([0, 1] : List Nat).Nodup ∧
    ((set_status ⟨.connected, [0, 1]⟩ .destroyed none 7 [1, 0]
        (fun l _ => if l = 0 then .error "boom" else .ok ())).2.map Prod.fst).count 0 = 1 :=
  ⟨by decide, by decide,
    ((status_transition_event_delivery ⟨.connected, [0, 1]⟩ .destroyed none 7 [1, 0]
        (fun l _ => if l = 0 then .error "boom" else .ok ())
        (by decide) (by decide)).2 (by decide)).2.2 0 (by decide)⟩

/-- C7: from any pool state satisfying the construction invariant, a second
`acquire_backend` with the same key returns the same backend instance while
the pooled backend's status is still CONNECTED; once its status is not
CONNECTED, the next acquire returns a different (fresh) instance, the table
entry is replaced with one pointing at the fresh pooled object, and every
previously allocated pooled object is left in place untouched (the pool
destroys nothing). -/
theorem pool_reuse_and_replacement (status1 status2 : Nat → ConnectionStatus)
    (t1 t2 : Nat) (s : PoolState) (k : String) (hInv : PoolInv s) :
    (status2 (acquire_backend status1 t1 s (some k)).backend = .connected →
      (acquire_backend status2 t2 (acquire_backend status1 t1 s (some k)).st (some k)).backend =
        (acquire_backend status1 t1 s (some k)).backend) ∧
    (status2 (acquire_backend status1 t1 s (some k)).backend ≠ .connected →
      (acquire_backend status2 t2 (acquire_backend status1 t1 s (some k)).st (some k)).backend ≠
        (acquire_backend status1 t1 s (some k)).backend ∧
      ((acquire_backend status2 t2 (acquire_backend status1 t1 s (some k)).st (some k)).st.objs.take
          (acquire_backend status1 t1 s (some k)).st.objs.length =
        (acquire_backend status1 t1 s (some k)).st.objs) ∧
      assocGet (acquire_backend status2 t2 (acquire_backend status1 t1 s (some k)).st (some k)).st.table k =
        some (acquire_backend status1 t1 s (some k)).st.objs.length) := by
  obtain ⟨oid, pb, hget, hobj, hbk⟩ := acquire_entry status1 t1 s k
  obtain ⟨hInv1, hlt⟩ := acquire_inv status1 t1 s (some k) hInv
  constructor
  · intro hc
    rw [acquire_reuse status2 t2 _ k oid pb hget hobj (by rw [hbk]; exact hc)]
    exact hbk
  · intro hc
    obtain ⟨hb2, hobjs2, htab2⟩ :=
      acquire_stale status2 t2 _ k oid pb hget hobj (by rw [hbk]; exact hc)
    refine ⟨?_, ?_, htab2⟩
    · rw [hb2]
      omega
    · rw [hobjs2]
      exact List.take_left _ _

/-- C7 (witness): on the empty pool, two CONNECTED acquires with key `x`
return the same backend instance. -/
theorem pool_reuse_and_replacement_witness :
    PoolInv initPool ∧
    (acquire_backend (fun _ => .connected) 1
        (acquire_backend (fun _ => .connected) 0 initPool (some "x")).st (some "x")).backend =
      (acquire_backend (fun _ => .connected) 0 initPool (some "x")).backend :=
  ⟨⟨by simp [initPool], by simp [initPool]⟩,
    (pool_reuse_and_replacement (fun _ => .connected) (fun _ => .connected) 0 1 initPool "x"
      ⟨by simp [initPool], by simp [initPool]⟩).1 rfl⟩

/-- C8 (counterexample): `release()` decrements without a guard, so invoking
the same release closure twice drives the pooled entry's `in_use` to -1 on a
trace in which every invoked release was indeed returned by an acquire. -/
theorem pool_in_use_negative_cx :
    wfTrace 0 [PoolOp.acquire (some "x") 0, PoolOp.release 0 1, PoolOp.release 0 2] = true ∧
    ((runPool (fun _ => ConnectionStatus.connected) initPool
        [PoolOp.acquire (some "x") 0, PoolOp.release 0 1, PoolOp.release 0 2]).objs.any
      (fun pb => pb.in_use < 0)) = true := by decide

/-- C8 (amended): for every sequence of acquires and release invocations in
which each release closure is invoked at most once (and only closures that
were actually returned are invoked), every pooled entry's `in_use` counter
stays non-negative. -/
theorem pool_in_use_nonneg (status : Nat → ConnectionStatus) (tr : List PoolOp)
    (hwf : wfTrace 0 tr = true) (hnd : (relIndices tr).Nodup) :
    ∀ pb ∈ (runPool status initPool tr).objs, 0 ≤ pb.in_use := by
  apply pool_avail_aux status tr initPool []
  · exact ⟨rfl, by intro i o hi; simp at hi, by intro o pb hge; simp [initPool] at hge⟩
  · exact hwf
  · exact hnd
  · intro j hj
    simp [initPool]

/-- C8 (witness): acquire then a single release leaves the entry at
`in_use = 0`, which the theorem certifies as non-negative. -/
theorem pool_in_use_nonneg_witness :
    wfTrace 0 [PoolOp.acquire (some "x") 0, PoolOp.release 0 1] = true ∧
    (relIndices [PoolOp.acquire (some "x") 0, PoolOp.release 0 1]).Nodup ∧
    (0 : Int) ≤ (⟨0, 0, 1⟩ : PooledBackend).in_use :=
  ⟨by decide, by decide,
    pool_in_use_nonneg (fun _ => ConnectionStatus.connected)
      [PoolOp.acquire (some "x") 0, PoolOp.release 0 1]
      (by decide) (by decide) ⟨0, 0, 1⟩ (by decide)⟩

/-- C9: `is_dangerous` lowercases the command for the dangerous patterns but
`_is_allowed` searches the original: the uppercase
`GCLOUD STORAGE RSYNC gs://b .` matches no allow pattern yet its lowercased
form matches the generic `rsync` dangerous pattern, so `is_dangerous` is
true for the uppercase command and false for the lowercase one. -/
theorem dangerous_check_case_asymmetry :
    is_dangerous ("GCLOUD STORAGE RSYNC gs://b .".toList) [] = true ∧
    is_dangerous ("gcloud storage rsync gs://b .".toList) [] = false ∧
    _is_allowed ("GCLOUD STORAGE RSYNC gs://b .".toList) [] = false ∧
    reSearch (wordRE ("rsync".toList))
      (pyLower (pyStrip ("GCLOUD STORAGE RSYNC gs://b .".toList))) = true := by decide

/-- C10: on the memory backend, write followed by read is the identity on
the stored payload: a written string read back with default text encoding is
returned exactly, and written bytes read back with buffer encoding are
returned exactly — for any UTF-8 codec implementation, since those paths
never invoke it. -/
theorem memory_write_read_roundtrip (encode : String → List Nat)
    (decode : List Nat → String) (m : MemoryBackend) (k : String)
    (s : String) (b : List Nat) :
    memRead encode decode (memWrite m k (.text s)) k .utf8 = .ok (.text s) ∧
    memRead encode decode (memWrite m k (.buf b)) k .buffer = .ok (.buf b) := by
  unfold memRead memWrite
  simp [assocGet_assocSet]

end AgentBackend
